import Mathlib

set_option autoImplicit false

/-!
Shallow embedding of the VRChat group scheduler core (scheduler, API client,
permission cache, storage), translated from the repository sources, together
with theorems settling the frozen claims about it.

Conventions: wall-clock instants are epoch milliseconds modelled as `Int`;
every `Date.now()` / `new Date()` observed during one synchronous stretch of
an operation is modelled as the same instant `now`; `await`-based sleeps
resume exactly after their delay (virtual time).
-/

namespace Sched

/-- Post status strings: pending | recurring | posted | failed | missed | deleted. -/
inductive Status where
  | pending
  | recurring
  | posted
  | failed
  | missed
  | deleted
deriving DecidableEq, Repr

/-- Recurrence rule of a post (posts.json `recurrence` field). -/
inductive Recurrence where
  | daily
  | weekly (days : List Nat)
  | monthly
deriving DecidableEq, Repr

/-- A persisted post record (one entry of posts.json), from scheduler.js. -/
structure Post where
  id : String
  groupId : String
  title : String
  text : String
  imageId : Option String
  sendNotification : Bool
  visibility : String
  scheduledAt : Int
  recurrence : Option Recurrence
  status : Status
  parentId : Option String
  error : Option String
  createdAt : Int
  updatedAt : Option Int
deriving DecidableEq, Repr

/-- The record merge done by updatePostStatus:
`posts[index] = { ...posts[index], status, ...extra, updatedAt }` where
`extra` is `{}` (none) or `{ error: msg }` (some msg). -/
def applyStatus (p : Post) (status : Status) (extra : Option String) (now : Int) : Post :=
  match extra with
  | some e => { p with status := status, error := some e, updatedAt := some now }
  | none => { p with status := status, updatedAt := some now }

/-- `posts.findIndex(p => p.id === id)` followed by replacing that one record:
update the first record whose id matches, leave the rest untouched. -/
def updateFirst (posts : List Post) (id : String) (f : Post → Post) : List Post :=
  match posts with
  | [] => []
  | p :: rest => if p.id == id then f p :: rest else p :: updateFirst rest id f

/-- updatePostStatus from scheduler.js (read list, patch first matching record,
write list back); no-op when the id is absent. -/
def updatePostStatus (posts : List Post) (id : String) (status : Status) (extra : Option String) (now : Int) : List Post :=
  updateFirst posts id (fun p => applyStatus p status extra now)

/-- The synchronous body of schedulePostJob from scheduler.js: a non-recurring
post whose scheduled time is already past is marked missed and no job is
armed (early return before `jobs.set`); otherwise a job is armed for the post.
Returns the resulting posts list and whether the job map gained the post id. -/
def schedulePostJob (posts : List Post) (post : Post) (now : Int) : List Post × Bool :=
  if post.recurrence = none ∧ post.scheduledAt < now then
    (updatePostStatus posts post.id .missed (some "Scheduled time passed while app was closed") now, false)
  else
    (posts, true)

/-- Filter used by initScheduler: `p.status === 'pending' || p.status === 'recurring'`. -/
def isActive (p : Post) : Bool :=
  p.status == .pending || p.status == .recurring

/-- One iteration of initScheduler's forEach over the active posts:
run schedulePostJob on the current posts list, record the armed id. -/
def reconcileStep (now : Int) (acc : List Post × List String) (post : Post) : List Post × List String :=
  let r := schedulePostJob acc.1 post now
  (r.1, if r.2 then acc.2 ++ [post.id] else acc.2)

/-- initScheduler from scheduler.js: load posts, keep pending and recurring
ones, schedulePostJob each. Returns the final posts list and the ids that
gained an in-memory job map entry. -/
def initScheduler (posts : List Post) (now : Int) : List Post × List String :=
  (posts.filter isActive).foldl (reconcileStep now) (posts, [])

/-- Caller-supplied post data for addPost. The three fields addPost defaults
(`{ id: randomUUID(), status: 'pending', createdAt: now, ...postData }`) are
optional here: `none` models the key being absent from the JS object, so the
default survives; `some` models the spread overriding the default. -/
structure PostInput where
  id : Option String
  status : Option Status
  createdAt : Option Int
  groupId : String
  title : String
  text : String
  imageId : Option String
  sendNotification : Bool
  visibility : String
  scheduledAt : Int
  recurrence : Option Recurrence
  parentId : Option String
  error : Option String
  updatedAt : Option Int
deriving DecidableEq, Repr

/-- The `newPost` object built inside addPost (defaults then spread). -/
def mkPost (d : PostInput) (freshId : String) (now : Int) : Post :=
  { id := d.id.getD freshId
    status := d.status.getD .pending
    createdAt := d.createdAt.getD now
    groupId := d.groupId
    title := d.title
    text := d.text
    imageId := d.imageId
    sendNotification := d.sendNotification
    visibility := d.visibility
    scheduledAt := d.scheduledAt
    recurrence := d.recurrence
    parentId := d.parentId
    error := d.error
    updatedAt := d.updatedAt }

/-- addPost from scheduler.js: push the new record, persist, and — unless
skipSchedule — immediately schedulePostJob it (which may mark it missed).
Returns (final posts list, the pushed record, whether a job was armed). -/
def addPost (posts : List Post) (d : PostInput) (freshId : String) (now : Int) (skipSchedule : Bool) : List Post × Post × Bool :=
  let newPost := mkPost d freshId now
  let posts1 := posts ++ [newPost]
  if skipSchedule then (posts1, newPost, false)
  else
    let r := schedulePostJob posts1 newPost now
    (r.1, newPost, r.2)

/-- The history-record postData built by the scheduled job body for a
recurring post: `{ ...post, id: newId, parentId: post.id, recurrence: null,
status, [error], scheduledAt: now, createdAt: now }`. For the success case the
`error` key is whatever the template carried (plain spread); for the failure
case it is the thrown message. -/
def historyInput (post : Post) (newId : String) (st : Status) (err : Option String) (now : Int) : PostInput :=
  { id := some newId
    status := some st
    createdAt := some now
    groupId := post.groupId
    title := post.title
    text := post.text
    imageId := post.imageId
    sendNotification := post.sendNotification
    visibility := post.visibility
    scheduledAt := now
    recurrence := none
    parentId := some post.id
    error := err
    updatedAt := post.updatedAt }

/-- The scheduled job body from schedulePostJob after createGroupPost finished
with `result`: a recurring template appends a history record via
`addPost(..., true)`; a one-shot post updates its own record's status. -/
def jobCallback (posts : List Post) (post : Post) (result : Except String Unit) (freshId : String) (now : Int) : List Post :=
  match result with
  | .ok _ =>
    match post.recurrence with
    | some _ => (addPost posts (historyInput post freshId .posted post.error now) freshId now true).1
    | none => updatePostStatus posts post.id .posted none now
  | .error e =>
    match post.recurrence with
    | some _ => (addPost posts (historyInput post freshId .failed (some e) now) freshId now true).1
    | none => updatePostStatus posts post.id .failed (some e) now

/-- getPosts from scheduler.js. -/
def getPosts (posts : List Post) (includeDeleted : Bool) (statusFilter : Option Status) : List Post :=
  match statusFilter with
  | some s => posts.filter (fun p => p.status == s)
  | none => if includeDeleted then posts else posts.filter (fun p => p.status != .deleted)

/-- First record carrying a given id, as the persisted list is queried. -/
def findById (posts : List Post) (id : String) : Option Post :=
  posts.find? (fun p => p.id == id)

end Sched

namespace Api

/-- MIN_REQUEST_INTERVAL from vrchat.js (200 ms minimum between requests). -/
def MIN_REQUEST_INTERVAL : Int := 200

/-- maxRetries from apiRequest (3 additional attempts after the first). -/
def maxRetries : Nat := 3

/-- The module-level rate limiter state: `lastRequestTime`. -/
structure ApiState where
  last : Int
deriving DecidableEq, Repr

/-- The throttle prologue of apiRequest: if less than MIN_REQUEST_INTERVAL has
elapsed since lastRequestTime, sleep the difference. The result is the instant
the first fetch is issued, which also becomes the new lastRequestTime. -/
def throttleEntry (last enter : Int) : Int :=
  if enter - last < MIN_REQUEST_INTERVAL then last + MIN_REQUEST_INTERVAL else enter

/-- The retry loop of apiRequest in virtual time. `statuses i` is the HTTP
status of attempt `i`, `lat i` that attempt's response latency, `t` the
instant the attempt's fetch is issued, `backoff` the current wait. Fuel equals
`maxRetries + 1 - attempt`, the loop iterations left; the fuel-exhausted case
is the statement after the loop, `throw new Error('VRChat API request failed
after max retries')`. Returns (fetch instants, finish instant, returned status
or thrown error). A 429 on the last attempt falls through both retry guards
and is returned. -/
def retryLoop (statuses : Nat → Nat) (lat : Nat → Int) :
    Nat → Nat → Nat → Int → List Int × Int × Except String Nat
  | 0, _, _, t => ([], t, .error "VRChat API request failed after max retries")
  | fuel + 1, attempt, backoff, t =>
    let s := statuses attempt
    let r := t + lat attempt
    if s = 429 then
      if attempt < maxRetries then
        let rest := retryLoop statuses lat fuel (attempt + 1) (min (backoff * 2) 30000) (r + backoff)
        (t :: rest.1, rest.2)
      else ([t], r, .ok s)
    else if 500 ≤ s ∧ attempt < maxRetries then
      let rest := retryLoop statuses lat fuel (attempt + 1) (min (backoff * 2) 30000) (r + backoff)
      (t :: rest.1, rest.2)
    else ([t], r, .ok s)

/-- apiRequest from vrchat.js (src/unnamed/part_002): global throttle, then up
to 1 + maxRetries fetch attempts with exponential backoff (2 s doubled, capped
at 30 s) on 429/5xx. `enter` is the instant the call begins. Returns (fetch
instants, finish instant, limiter state after the call, outcome). -/
def apiRequest (st : ApiState) (enter : Int) (statuses : Nat → Nat) (lat : Nat → Int) :
    List Int × Int × ApiState × Except String Nat :=
  let t0 := throttleEntry st.last enter
  let r := retryLoop statuses lat (maxRetries + 1) 0 2000 t0
  (r.1, r.2.1, ⟨t0⟩, r.2.2)

end Api

namespace Groups

/-- The group payload from the users/:id/groups endpoint (the fields the cache
reads; the rest of the payload rides along opaquely in real data). -/
structure GroupInfo where
  groupId : String
  ownerId : String
  name : String
  shortCode : String
deriving DecidableEq, Repr

/-- GroupPermissionEntry: the cached verdict for one group. -/
structure Entry where
  name : String
  shortCode : String
  isOwner : Bool
  hasPermission : Bool
  checkedAt : Option Int
  groupData : GroupInfo
  error : Option String
deriving DecidableEq, Repr

/-- The `groups` object of the cache document: an insertion-ordered
string-keyed JS object. -/
abbrev GroupMap := List (String × Entry)

/-- `m[k] = v` on a JS object: replace in place when the key exists (keeping
its position), else append. -/
def upsert (m : GroupMap) (k : String) (v : Entry) : GroupMap :=
  if m.any (fun p => p.1 == k) then
    m.map (fun p => if p.1 == k then (k, v) else p)
  else m ++ [(k, v)]

/-- `m[k]` read on a JS object. -/
def mlookup (m : GroupMap) (k : String) : Option Entry :=
  (m.find? (fun p => p.1 == k)).map (fun p => p.2)

/-- GroupCacheDocument persisted in group-permissions.json. -/
structure CacheDoc where
  lastFullCheck : Option Int
  lastRefresh : Option Int
  groups : GroupMap
deriving DecidableEq, Repr

def GROUP_CACHE_TTL : Int := 30 * 60 * 1000

def REFRESH_COOLDOWN : Int := 5 * 60 * 1000

/-- Entry written for a group the user owns. -/
def ownerEntry (g : GroupInfo) (now : Int) : Entry :=
  { name := g.name
    shortCode := g.shortCode
    isOwner := true
    hasPermission := true
    checkedAt := some now
    groupData := g
    error := none }

/-- Entry written after checkAnnouncementPermission returned `b`. -/
def checkedEntry (g : GroupInfo) (b : Bool) (now : Int) : Entry :=
  { name := g.name
    shortCode := g.shortCode
    isOwner := false
    hasPermission := b
    checkedAt := some now
    groupData := g
    error := none }

/-- Entry written when checkAnnouncementPermission threw. The smart path
stores the thrown message under `error`; the force path stores no error. -/
def failedEntry (g : GroupInfo) (e : Option String) (now : Int) : Entry :=
  { name := g.name
    shortCode := g.shortCode
    isOwner := false
    hasPermission := false
    checkedAt := some now
    groupData := g
    error := e }

/-- Reuse of a cached verdict with refreshed display data:
`{ ...cached, groupData: group, name: group.name, shortCode: group.shortCode }`. -/
def refreshDisplay (cached : Entry) (g : GroupInfo) : Entry :=
  { cached with groupData := g, name := g.name, shortCode := g.shortCode }

/-- One loop iteration of checkAndCachePermissions. `perm` is
checkAnnouncementPermission's outcome per group id (`.error` = it threw). The
second accumulator collects the group ids for which a permission check (group
detail / role-list fetches) was actually performed. Lookups of already-checked
verdicts go to the ORIGINAL `existing` map, as in the source. -/
def smartStep (userId : String) (existing : GroupMap) (now : Int)
    (perm : String → Except String Bool)
    (acc : GroupMap × List String) (g : GroupInfo) : GroupMap × List String :=
  if g.ownerId == userId then
    (upsert acc.1 g.groupId (ownerEntry g now), acc.2)
  else
    let reusable : Option Entry :=
      match mlookup existing g.groupId with
      | some cached => if cached.checkedAt.isSome then some cached else none
      | none => none
    match reusable with
    | some cached => (upsert acc.1 g.groupId (refreshDisplay cached g), acc.2)
    | none =>
      match perm g.groupId with
      | .ok b => (upsert acc.1 g.groupId (checkedEntry g b now), acc.2 ++ [g.groupId])
      | .error e => (upsert acc.1 g.groupId (failedEntry g (some e) now), acc.2 ++ [g.groupId])

/-- checkAndCachePermissions (smart refresh): start from a copy of the
existing map, then merge every live group. -/
def checkAndCachePermissions (allGroups : List GroupInfo) (userId : String)
    (existing : CacheDoc) (perm : String → Except String Bool) (now : Int) :
    GroupMap × List String :=
  allGroups.foldl (smartStep userId existing.groups now perm) (existing.groups, [])

/-- One loop iteration of forceCheckAllPermissions: owners are granted without
a check, everyone else is re-checked unconditionally; its catch records no
error field. -/
def forceStep (userId : String) (now : Int) (perm : String → Except String Bool)
    (acc : GroupMap × List String) (g : GroupInfo) : GroupMap × List String :=
  if g.ownerId == userId then
    (upsert acc.1 g.groupId (ownerEntry g now), acc.2)
  else
    match perm g.groupId with
    | .ok b => (upsert acc.1 g.groupId (checkedEntry g b now), acc.2 ++ [g.groupId])
    | .error _ => (upsert acc.1 g.groupId (failedEntry g none now), acc.2 ++ [g.groupId])

/-- forceCheckAllPermissions (manual refresh): rebuild the map from `{}`. -/
def forceCheckAllPermissions (allGroups : List GroupInfo) (userId : String)
    (perm : String → Except String Bool) (now : Int) : GroupMap × List String :=
  allGroups.foldl (forceStep userId now perm) ([], [])

/-- One element of the filtered list handed to callers:
`{ ...info.groupData, groupId: gid, isOwner, hasAnnouncementPermission: true }`. -/
structure FilteredGroup where
  groupData : GroupInfo
  groupId : String
  isOwner : Bool
  hasAnnouncementPermission : Bool
deriving DecidableEq, Repr

/-- buildFilteredGroupList: entries with permission, in map order. -/
def buildFilteredGroupList (m : GroupMap) : List FilteredGroup :=
  (m.filter (fun p => p.2.hasPermission)).map
    (fun p =>
      { groupData := p.2.groupData
        groupId := p.1
        isOwner := p.2.isOwner
        hasAnnouncementPermission := true })

/-- Case-1 guard of getUserGroups: a full check within the TTL and a non-empty
map. -/
def cacheFresh (cache : CacheDoc) (now : Int) : Bool :=
  match cache.lastFullCheck with
  | some t => decide (now - t < GROUP_CACHE_TTL) && !cache.groups.isEmpty
  | none => false

structure GroupsResult where
  groups : List FilteredGroup
  needsScan : Bool
deriving DecidableEq, Repr

/-- getUserGroups: fresh-cache fast path, first-run needsScan path, else smart
refresh. `fetched` is the successful payload of the case-3 group-list fetch.
Returns (result, persisted cache document after the call, ids
permission-checked over the network). -/
def getUserGroups (cache : CacheDoc) (now : Int) (fetched : List GroupInfo)
    (perm : String → Except String Bool) (userId : String) :
    GroupsResult × CacheDoc × List String :=
  if cacheFresh cache now then
    ({ groups := buildFilteredGroupList cache.groups, needsScan := false }, cache, [])
  else if cache.lastFullCheck.isNone || cache.groups.isEmpty then
    ({ groups := [], needsScan := true }, cache, [])
  else
    let r := checkAndCachePermissions fetched userId cache perm now
    ({ groups := buildFilteredGroupList r.1, needsScan := false },
      { lastFullCheck := some now, lastRefresh := cache.lastRefresh, groups := r.1 }, r.2)

structure RefreshResult where
  groups : List FilteredGroup
  cooldownRemaining : Int
  refreshed : Bool
deriving DecidableEq, Repr

/-- Math.ceil(ms / 1000) for the positive integral remainders the code feeds
it. -/
def ceilSeconds (ms : Int) : Int := (ms + 999) / 1000

/-- The force branch of refreshUserGroups (cooldown already passed). -/
def refreshForce (now : Int) (fetched : List GroupInfo)
    (perm : String → Except String Bool) (userId : String) :
    RefreshResult × CacheDoc × Bool × List String :=
  let r := forceCheckAllPermissions fetched userId perm now
  ({ groups := buildFilteredGroupList r.1, cooldownRemaining := 0, refreshed := true },
    { lastFullCheck := some now, lastRefresh := some now, groups := r.1 }, true, r.2)

/-- refreshUserGroups: manual refresh with a 5-minute cooldown. Returns
(result, persisted cache document after the call, whether any network request
was issued, ids permission-checked). `fetched` is the successful group-list
payload of the force branch. -/
def refreshUserGroups (cache : CacheDoc) (now : Int) (fetched : List GroupInfo)
    (perm : String → Except String Bool) (userId : String) :
    RefreshResult × CacheDoc × Bool × List String :=
  match cache.lastRefresh with
  | some lr =>
    let cooldownRemaining := REFRESH_COOLDOWN - (now - lr)
    if 0 < cooldownRemaining then
      ({ groups := buildFilteredGroupList cache.groups
         cooldownRemaining := ceilSeconds cooldownRemaining
         refreshed := false }, cache, false, [])
    else refreshForce now fetched perm userId
  | none => refreshForce now fetched perm userId

end Groups

namespace Storage

/-- Raw on-disk content of a named document. -/
inductive RawDoc where
  | missing
  | stored (bytes : String)
deriving DecidableEq, Repr

/-- The failure cases of readJson's try block. -/
inductive ReadErr where
  | enoent
  | decryptFailed
  | parseFailed
deriving DecidableEq, Repr

/-- The try block of readJson (the background.js revision carrying the
`encrypted` option): read the file, decrypt when requested and the platform
mechanism is available, then JSON.parse. `decrypt` and `parse` are the
safeStorage / JSON oracles; `none` models a throw. -/
def readJsonTry {α : Type} (raw : RawDoc) (encrypted encAvail : Bool)
    (decrypt : String → Option String) (parse : String → Option α) : Except ReadErr α :=
  match raw with
  | .missing => .error .enoent
  | .stored bytes =>
    if encrypted && encAvail then
      match decrypt bytes with
      | none => .error .decryptFailed
      | some s =>
        match parse s with
        | none => .error .parseFailed
        | some v => .ok v
    else
      match parse bytes with
      | none => .error .parseFailed
      | some v => .ok v

/-- readJson: its catch returns defaultValue for ENOENT and for every other
error (decrypt or parse failure) alike, so the call never raises. -/
def readJson {α : Type} (raw : RawDoc) (encrypted encAvail : Bool)
    (decrypt : String → Option String) (parse : String → Option α)
    (defaultValue : α) : α :=
  match readJsonTry raw encrypted encAvail decrypt parse with
  | .ok v => v
  | .error _ => defaultValue

end Storage

namespace Ex

/-- Concrete one-shot post data with a past fire time (no id/status/createdAt
keys supplied by the caller, as the UI's create-post path does). -/
def pastInput : Sched.PostInput :=
  { id := none
    status := none
    createdAt := none
    groupId := "grp_1"
    title := "hello"
    text := "world"
    imageId := none
    sendNotification := false
    visibility := "public"
    scheduledAt := 500
    recurrence := none
    parentId := none
    error := none
    updatedAt := none }

/-- A recurring daily template record. -/
def tpl : Sched.Post :=
  { id := "tpl_1"
    groupId := "grp_1"
    title := "daily"
    text := "post"
    imageId := none
    sendNotification := false
    visibility := "public"
    scheduledAt := 900
    recurrence := some .daily
    status := .recurring
    parentId := none
    error := none
    createdAt := 0
    updatedAt := none }

/-- A pending one-shot post whose time (500) is before startup (1000). -/
def oneShot : Sched.Post :=
  { id := "one_1"
    groupId := "grp_1"
    title := "late"
    text := "post"
    imageId := none
    sendNotification := false
    visibility := "public"
    scheduledAt := 500
    recurrence := none
    status := .pending
    parentId := none
    error := none
    createdAt := 0
    updatedAt := none }

/-- Response schedule: first attempt rate-limited, then success. -/
def schedRetryOnce : Nat → Nat := fun n => if n = 0 then 429 else 200

/-- Response schedule: always success. -/
def schedOk : Nat → Nat := fun _ => 200

/-- Zero response latency for every attempt. -/
def zeroLat : Nat → Int := fun _ => 0

/-- First sequential apiRequest call: entered at 1000 on a fresh limiter,
rate-limited once, so its attempts are issued at 1000 and 3000. -/
def call1 : List Int × Int × Api.ApiState × Except String Nat :=
  Api.apiRequest ⟨0⟩ 1000 schedRetryOnce zeroLat

/-- Second sequential apiRequest call, entered the instant the first returns. -/
def call2 : List Int × Int × Api.ApiState × Except String Nat :=
  Api.apiRequest call1.2.2.1 call1.2.1 schedOk zeroLat

/-- All fetch instants the two sequential calls issue, in order. -/
def seqFetchTimes : List Int := call1.1 ++ call2.1

/-- A group owned by usr_1. -/
def g1 : Groups.GroupInfo :=
  { groupId := "grp_1", ownerId := "usr_1", name := "G1", shortCode := "G1S" }

/-- A group usr_1 does not own. -/
def g2 : Groups.GroupInfo :=
  { groupId := "grp_2", ownerId := "usr_2", name := "G2", shortCode := "G2S" }

/-- A cached positive non-owner verdict for grp_2. -/
def e2 : Groups.Entry :=
  { name := "G2"
    shortCode := "G2S"
    isOwner := false
    hasPermission := true
    checkedAt := some 10
    groupData := g2
    error := none }

/-- A cache document refreshed manually at t = 100000. -/
def cacheEx : Groups.CacheDoc :=
  { lastFullCheck := some 100000, lastRefresh := some 100000, groups := [("grp_2", e2)] }

end Ex

namespace SchedThm

open Sched

theorem applyStatus_id (p : Post) (st : Status) (ex : Option String) (now : Int) :
    (applyStatus p st ex now).id = p.id := by
  cases ex <;> rfl

theorem applyStatus_status (p : Post) (st : Status) (ex : Option String) (now : Int) :
    (applyStatus p st ex now).status = st := by
  cases ex <;> rfl

theorem findById_cons (p : Post) (l : List Post) (gid : String) :
    findById (p :: l) gid = if p.id = gid then some p else findById l gid := by
  by_cases h : p.id = gid <;> simp [findById, List.find?_cons, h]

theorem findById_append_ne (l : List Post) (h : Post) (gid : String) (hne : h.id ≠ gid) :
    findById (l ++ [h]) gid = findById l gid := by
  induction l with
  | nil => rw [List.nil_append, findById_cons, if_neg hne]
  | cons p rest ih =>
    rw [List.cons_append, findById_cons, findById_cons, ih]

theorem findById_eq_of_mem_nodup (posts : List Post) (p : Post)
    (hmem : p ∈ posts) (hnd : (posts.map Post.id).Nodup) :
    findById posts p.id = some p := by
  induction posts with
  | nil => cases hmem
  | cons q rest ih =>
    rw [List.map_cons, List.nodup_cons] at hnd
    rw [findById_cons]
    rcases List.mem_cons.mp hmem with h | h
    · subst h; simp
    · have hne : q.id ≠ p.id := fun he => hnd.1 (he ▸ List.mem_map_of_mem Post.id h)
      simp [hne, ih h hnd.2]

theorem findById_updateFirst_ne (m : List Post) (k gid : String) (f : Post → Post)
    (hk : k ≠ gid) (hf : ∀ p, (f p).id = p.id) :
    findById (updateFirst m k f) gid = findById m gid := by
  induction m with
  | nil => rfl
  | cons p rest ih =>
    by_cases hp : p.id = k
    · have h1 : (f p).id ≠ gid := by rw [hf, hp]; exact hk
      have h2 : p.id ≠ gid := fun hcon => hk (hp.symm.trans hcon)
      have hb : (p.id == k) = true := beq_iff_eq.mpr hp
      simp only [updateFirst, hb, if_true]
      rw [findById_cons, findById_cons, if_neg h1, if_neg h2]
    · have hb : (p.id == k) = false := beq_eq_false_iff_ne.mpr hp
      simp only [updateFirst, hb, if_false, Bool.false_eq_true]
      rw [findById_cons, findById_cons, ih]

theorem findById_updateFirst_eq (m : List Post) (k : String) (f : Post → Post) (p : Post)
    (hp : findById m k = some p) (hf : ∀ q, (f q).id = q.id) :
    findById (updateFirst m k f) k = some (f p) := by
  induction m with
  | nil => simp [findById] at hp
  | cons q rest ih =>
    rw [findById_cons] at hp
    by_cases hq : q.id = k
    · rw [if_pos hq] at hp
      injection hp with hqp
      subst hqp
      have hfk : (f q).id = k := by rw [hf]; exact hq
      have hb : (q.id == k) = true := beq_iff_eq.mpr hq
      simp only [updateFirst, hb, if_true]
      rw [findById_cons, if_pos hfk]
    · rw [if_neg hq] at hp
      have hb : (q.id == k) = false := beq_eq_false_iff_ne.mpr hq
      simp only [updateFirst, hb, if_false, Bool.false_eq_true]
      rw [findById_cons, if_neg hq]
      exact ih hp

theorem findById_updatePostStatus_ne (m : List Post) (k gid : String) (st : Status)
    (ex : Option String) (now : Int) (hk : k ≠ gid) :
    findById (updatePostStatus m k st ex now) gid = findById m gid :=
  findById_updateFirst_ne m k gid _ hk (fun p => applyStatus_id p st ex now)

theorem findById_updatePostStatus_eq (m : List Post) (k : String) (st : Status)
    (ex : Option String) (now : Int) (p : Post) (hp : findById m k = some p) :
    findById (updatePostStatus m k st ex now) k = some (applyStatus p st ex now) :=
  findById_updateFirst_eq m k _ p hp (fun q => applyStatus_id q st ex now)

theorem findById_append_self (l : List Post) (h : Post) (gid : String)
    (hne : ∀ p ∈ l, p.id ≠ gid) (hh : h.id = gid) :
    findById (l ++ [h]) gid = some h := by
  induction l with
  | nil => rw [List.nil_append, findById_cons, if_pos hh]
  | cons p rest ih =>
    rw [List.cons_append, findById_cons, if_neg (hne p (List.mem_cons_self _ _))]
    exact ih fun x hx => hne x (List.mem_cons_of_mem _ hx)

theorem mem_updateFirst (m : List Post) (k : String) (f : Post → Post) (x : Post)
    (hx : x ∈ updateFirst m k f) : x ∈ m ∨ ∃ y ∈ m, x = f y := by
  induction m with
  | nil => cases hx
  | cons p rest ih =>
    by_cases hp : (p.id == k) = true
    · simp only [updateFirst, hp, if_true] at hx
      rcases List.mem_cons.mp hx with rfl | hx2
      · exact Or.inr ⟨p, List.mem_cons_self _ _, rfl⟩
      · exact Or.inl (List.mem_cons_of_mem _ hx2)
    · simp only [updateFirst, hp, if_false, Bool.false_eq_true] at hx
      rcases List.mem_cons.mp hx with rfl | hx2
      · exact Or.inl (List.mem_cons_self _ _)
      · rcases ih hx2 with h | ⟨y, hy, hxy⟩
        · exact Or.inl (List.mem_cons_of_mem _ h)
        · exact Or.inr ⟨y, List.mem_cons_of_mem _ hy, hxy⟩

theorem reconcile_fold_frame (now : Int) (todo : List Post) (gid : String)
    (hne : ∀ q ∈ todo, q.id ≠ gid) :
    ∀ ps ar, findById (todo.foldl (reconcileStep now) (ps, ar)).1 gid = findById ps gid
      ∧ (gid ∈ (todo.foldl (reconcileStep now) (ps, ar)).2 ↔ gid ∈ ar) := by
  induction todo with
  | nil => intro ps ar; exact ⟨rfl, Iff.rfl⟩
  | cons q rest ih =>
    intro ps ar
    have hq : q.id ≠ gid := hne q (List.mem_cons_self _ _)
    have hrest : ∀ x ∈ rest, x.id ≠ gid := fun x hx => hne x (List.mem_cons_of_mem _ hx)
    rw [List.foldl_cons]
    by_cases hc : q.recurrence = none ∧ q.scheduledAt < now
    · have hstep : reconcileStep now (ps, ar) q
          = (updatePostStatus ps q.id .missed
              (some "Scheduled time passed while app was closed") now, ar) := by
        simp [reconcileStep, schedulePostJob, hc]
      rw [hstep]
      obtain ⟨h1, h2⟩ := ih hrest _ ar
      exact ⟨h1.trans (findById_updatePostStatus_ne _ _ _ _ _ _ hq), h2⟩
    · have hstep : reconcileStep now (ps, ar) q = (ps, ar ++ [q.id]) := by
        simp [reconcileStep, schedulePostJob, hc]
      rw [hstep]
      obtain ⟨h1, h2⟩ := ih hrest ps (ar ++ [q.id])
      refine ⟨h1, h2.trans ?_⟩
      simp [List.mem_append, hq.symm]

theorem reconcile_fold_missed (now : Int) (p : Post)
    (hrec : p.recurrence = none) (hpast : p.scheduledAt < now) :
    ∀ (todo : List Post) ps ar, p ∈ todo → (todo.map Post.id).Nodup →
      findById ps p.id = some p →
      findById (todo.foldl (reconcileStep now) (ps, ar)).1 p.id
          = some (applyStatus p .missed (some "Scheduled time passed while app was closed") now)
        ∧ (p.id ∈ (todo.foldl (reconcileStep now) (ps, ar)).2 ↔ p.id ∈ ar) := by
  intro todo
  induction todo with
  | nil => intro ps ar h; cases h
  | cons q rest ih =>
    intro ps ar hmem hnd hfind
    rw [List.map_cons, List.nodup_cons] at hnd
    rw [List.foldl_cons]
    rcases List.mem_cons.mp hmem with rfl | hmem2
    · have hstep : reconcileStep now (ps, ar) p
          = (updatePostStatus ps p.id .missed
              (some "Scheduled time passed while app was closed") now, ar) := by
        simp [reconcileStep, schedulePostJob, hrec, hpast]
      rw [hstep]
      have hrest : ∀ x ∈ rest, x.id ≠ p.id :=
        fun x hx he => hnd.1 (he ▸ List.mem_map_of_mem Post.id hx)
      obtain ⟨h1, h2⟩ := reconcile_fold_frame now rest p.id hrest _ ar
      exact ⟨h1.trans (findById_updatePostStatus_eq _ _ _ _ _ p hfind), h2⟩
    · have hq : q.id ≠ p.id :=
        fun he => hnd.1 (he ▸ List.mem_map_of_mem Post.id hmem2)
      by_cases hc : q.recurrence = none ∧ q.scheduledAt < now
      · have hstep : reconcileStep now (ps, ar) q
            = (updatePostStatus ps q.id .missed
                (some "Scheduled time passed while app was closed") now, ar) := by
          simp [reconcileStep, schedulePostJob, hc]
        rw [hstep]
        have hfind2 : findById (updatePostStatus ps q.id .missed
            (some "Scheduled time passed while app was closed") now) p.id = some p :=
          (findById_updatePostStatus_ne _ _ _ _ _ _ hq).trans hfind
        exact ih _ ar hmem2 hnd.2 hfind2
      · have hstep : reconcileStep now (ps, ar) q = (ps, ar ++ [q.id]) := by
          simp [reconcileStep, schedulePostJob, hc]
        rw [hstep]
        obtain ⟨h1, h2⟩ := ih ps (ar ++ [q.id]) hmem2 hnd.2 hfind
        refine ⟨h1, h2.trans ?_⟩
        have hq2 : p.id ≠ q.id := fun he => hq he.symm
        simp [List.mem_append, hq2]

/-- C1: a recurring template's own record is never transitioned by the
scheduler: startup (re)scheduling arms it without touching the posts list,
each firing appends exactly one new history record (fresh id, parentId equal
to the template id, recurrence null, status posted on success or failed with
the error message on failure) while leaving every existing record — the
template included — unchanged, and a firing of any other post leaves the
template's record untouched. -/
theorem recurring_template_preserved (posts : List Post) (tpl : Post) (rc : Recurrence)
    (res : Except String Unit) (freshId : String) (now : Int)
    (hrec : tpl.recurrence = some rc) :
    (∃ h, jobCallback posts tpl res freshId now = posts ++ [h]
        ∧ h.id = freshId ∧ h.parentId = some tpl.id ∧ h.recurrence = none
        ∧ h.status = (match res with | .ok _ => Status.posted | .error _ => Status.failed)
        ∧ ∀ e, res = .error e → h.error = some e)
    ∧ schedulePostJob posts tpl now = (posts, true)
    ∧ ∀ (q : Post) (res2 : Except String Unit) (fid2 : String) (now2 : Int),
        q.id ≠ tpl.id → fid2 ≠ tpl.id →
        findById (jobCallback posts q res2 fid2 now2) tpl.id = findById posts tpl.id := by
  refine ⟨?_, ?_, ?_⟩
  · cases res with
    | ok u =>
      refine ⟨mkPost (historyInput tpl freshId .posted tpl.error now) freshId now,
        by simp [jobCallback, hrec, addPost], rfl, rfl, rfl, rfl, ?_⟩
      intro e he; cases he
    | error e =>
      refine ⟨mkPost (historyInput tpl freshId .failed (some e) now) freshId now,
        by simp [jobCallback, hrec, addPost], rfl, rfl, rfl, rfl, ?_⟩
      intro e2 he2
      injection he2 with he3
      subst he3
      rfl
  · have : ¬(tpl.recurrence = none ∧ tpl.scheduledAt < now) := by simp [hrec]
    simp [schedulePostJob, this]
  · intro q res2 fid2 now2 hq hf
    cases res2 with
    | ok u =>
      cases hqr : q.recurrence with
      | some rc2 =>
        have : jobCallback posts q (.ok u) fid2 now2
            = posts ++ [mkPost (historyInput q fid2 .posted q.error now2) fid2 now2] := by
          simp [jobCallback, hqr, addPost]
        rw [this]
        exact findById_append_ne _ _ _ hf
      | none =>
        have : jobCallback posts q (.ok u) fid2 now2
            = updatePostStatus posts q.id .posted none now2 := by
          simp [jobCallback, hqr]
        rw [this]
        exact findById_updatePostStatus_ne _ _ _ _ _ _ hq
    | error e =>
      cases hqr : q.recurrence with
      | some rc2 =>
        have : jobCallback posts q (.error e) fid2 now2
            = posts ++ [mkPost (historyInput q fid2 .failed (some e) now2) fid2 now2] := by
          simp [jobCallback, hqr, addPost]
        rw [this]
        exact findById_append_ne _ _ _ hf
      | none =>
        have : jobCallback posts q (.error e) fid2 now2
            = updatePostStatus posts q.id .failed (some e) now2 := by
          simp [jobCallback, hqr]
        rw [this]
        exact findById_updatePostStatus_ne _ _ _ _ _ _ hq

/-- Witness for C1 at a concrete failing fire of a daily template. -/
theorem recurring_template_preserved_witness :
    Ex.tpl.recurrence = some Recurrence.daily
    ∧ (∃ h, jobCallback [Ex.tpl] Ex.tpl (.error "boom") "h1" 5 = [Ex.tpl] ++ [h]
        ∧ h.id = "h1" ∧ h.parentId = some Ex.tpl.id ∧ h.recurrence = none
        ∧ h.status = .failed ∧ h.error = some "boom") := by
  refine ⟨rfl, ?_⟩
  obtain ⟨⟨h, heq, hid, hpid, hrc, hst, herr⟩, -, -⟩ :=
    recurring_template_preserved [Ex.tpl] Ex.tpl .daily (.error "boom") "h1" 5 rfl
  exact ⟨h, heq, hid, hpid, hrc, hst, herr "boom" rfl⟩

/-- C2: at startup reconciliation, every pending one-shot post whose
scheduledAt is already past is marked missed with an explanatory error and is
never armed: the in-memory job map gains no entry for its id. -/
theorem startup_past_oneshot_missed (posts : List Post) (p : Post) (now : Int)
    (hmem : p ∈ posts) (hnd : (posts.map Post.id).Nodup)
    (hst : p.status = .pending) (hrec : p.recurrence = none)
    (hpast : p.scheduledAt < now) :
    (∃ q, findById (initScheduler posts now).1 p.id = some q
        ∧ q.status = .missed
        ∧ q.error = some "Scheduled time passed while app was closed")
    ∧ p.id ∉ (initScheduler posts now).2 := by
  have hactive : p ∈ posts.filter isActive :=
    List.mem_filter.mpr ⟨hmem, by simp [isActive, hst]⟩
  have hsub : List.Sublist ((posts.filter isActive).map Post.id) (posts.map Post.id) :=
    (List.filter_sublist posts).map Post.id
  have hndf : ((posts.filter isActive).map Post.id).Nodup := List.Nodup.sublist hsub hnd
  have hfind : findById posts p.id = some p := findById_eq_of_mem_nodup posts p hmem hnd
  obtain ⟨h1, h2⟩ := reconcile_fold_missed now p hrec hpast (posts.filter isActive)
    posts [] hactive hndf hfind
  refine ⟨⟨_, h1, applyStatus_status _ _ _ _, rfl⟩, ?_⟩
  intro hin
  exact absurd (h2.mp hin) (List.not_mem_nil _)

/-- Witness for C2: a past pending one-shot next to a recurring template. -/
theorem startup_past_oneshot_missed_witness :
    (Ex.oneShot ∈ [Ex.oneShot, Ex.tpl]
      ∧ ([Ex.oneShot, Ex.tpl].map Post.id).Nodup
      ∧ Ex.oneShot.status = .pending ∧ Ex.oneShot.recurrence = none
      ∧ Ex.oneShot.scheduledAt < 1000)
    ∧ (∃ q, findById (initScheduler [Ex.oneShot, Ex.tpl] 1000).1 Ex.oneShot.id = some q
        ∧ q.status = .missed
        ∧ q.error = some "Scheduled time passed while app was closed")
    ∧ Ex.oneShot.id ∉ (initScheduler [Ex.oneShot, Ex.tpl] 1000).2 := by
  refine ⟨⟨List.mem_cons_self _ _, by decide, rfl, rfl, by decide⟩, ?_⟩
  exact startup_past_oneshot_missed [Ex.oneShot, Ex.tpl] Ex.oneShot 1000
    (List.mem_cons_self _ _) (by decide) rfl rfl (by decide)

/-- C7 counterexample: during normal run, addPost on a one-shot input whose
scheduledAt (500) is already in the past (now = 1000) stores the new record
and immediately sets its status to missed — refuting the claim that only
startup reconciliation ever assigns missed. -/
theorem addPost_past_marks_missed_cex :
    ((Sched.addPost [] Ex.pastInput "p1" 1000 false).1.map Post.status = [Status.missed])
    ∧ (Sched.addPost [] Ex.pastInput "p1" 1000 false).2.2 = false :=
  ⟨rfl, rfl⟩

/-- C7 (amended): the missed status is assigned exactly by schedulePostJob's
past-time check, which runs not only at startup but also from addPost during
normal run: addPost (with caller data lacking id/status keys) stores a record
whose status is missed precisely when the data is one-shot with a past
scheduledAt (arming no job in that case), while firing a post never
introduces a missed status. -/
theorem addPost_missed_only_via_schedule (posts : List Post) (d : PostInput)
    (freshId : String) (now : Int)
    (hid : d.id = none) (hst : d.status = none)
    (hfresh : ∀ p ∈ posts, p.id ≠ freshId) :
    ((findById (addPost posts d freshId now false).1 freshId).map Post.status
        = some (if d.recurrence = none ∧ d.scheduledAt < now then Status.missed else Status.pending))
    ∧ ((addPost posts d freshId now false).2.2 = true
        ↔ ¬(d.recurrence = none ∧ d.scheduledAt < now))
    ∧ ∀ (q : Post) (res : Except String Unit) (fid : String) (now2 : Int),
        (∀ x ∈ posts, x.status ≠ .missed) →
        ∀ x ∈ jobCallback posts q res fid now2, x.status ≠ .missed := by
  have hnid : (mkPost d freshId now).id = freshId := by simp [mkPost, hid]
  have hnst : (mkPost d freshId now).status = .pending := by simp [mkPost, hst]
  have hfind1 : findById (posts ++ [mkPost d freshId now]) freshId
      = some (mkPost d freshId now) := findById_append_self posts _ freshId hfresh hnid
  have hcond : ((mkPost d freshId now).recurrence = none ∧ (mkPost d freshId now).scheduledAt < now)
      ↔ (d.recurrence = none ∧ d.scheduledAt < now) := by simp [mkPost]
  refine ⟨?_, ?_, ?_⟩
  · by_cases hc : d.recurrence = none ∧ d.scheduledAt < now
    · have heq : addPost posts d freshId now false
          = (updatePostStatus (posts ++ [mkPost d freshId now]) freshId .missed
              (some "Scheduled time passed while app was closed") now,
             mkPost d freshId now, false) := by
        simp [addPost, schedulePostJob, hcond.mpr hc, hnid]
      rw [heq, if_pos hc]
      simp [findById_updatePostStatus_eq _ _ _ _ _ _ hfind1, applyStatus_status]
    · have hnc : ¬((mkPost d freshId now).recurrence = none
          ∧ (mkPost d freshId now).scheduledAt < now) := fun hx => hc (hcond.mp hx)
      have heq : addPost posts d freshId now false
          = (posts ++ [mkPost d freshId now], mkPost d freshId now, true) := by
        simp [addPost, schedulePostJob, hnc]
      rw [heq, if_neg hc]
      simp [hfind1, hnst]
  · by_cases hc : d.recurrence = none ∧ d.scheduledAt < now
    · have heq : (addPost posts d freshId now false).2.2 = false := by
        simp [addPost, schedulePostJob, hcond.mpr hc]
      simp [heq, hc]
    · have hnc : ¬((mkPost d freshId now).recurrence = none
          ∧ (mkPost d freshId now).scheduledAt < now) := fun hx => hc (hcond.mp hx)
      have heq : (addPost posts d freshId now false).2.2 = true := by
        simp [addPost, schedulePostJob, hnc]
      simp [heq, hc]
  · intro q res fid now2 hclean x hx
    cases res with
    | ok u =>
      cases hqr : q.recurrence with
      | some rc =>
        rw [show jobCallback posts q (.ok u) fid now2
            = posts ++ [mkPost (historyInput q fid .posted q.error now2) fid now2] by
          simp [jobCallback, hqr, addPost]] at hx
        rcases List.mem_append.mp hx with h | h
        · exact hclean x h
        · rw [List.mem_singleton.mp h]
          intro hcon
          simp [mkPost, historyInput] at hcon
      | none =>
        rw [show jobCallback posts q (.ok u) fid now2
            = updatePostStatus posts q.id .posted none now2 by
          simp [jobCallback, hqr]] at hx
        rcases mem_updateFirst _ _ _ _ hx with h | ⟨y, _, rfl⟩
        · exact hclean x h
        · rw [applyStatus_status]
          intro hcon
          cases hcon
    | error e =>
      cases hqr : q.recurrence with
      | some rc =>
        rw [show jobCallback posts q (.error e) fid now2
            = posts ++ [mkPost (historyInput q fid .failed (some e) now2) fid now2] by
          simp [jobCallback, hqr, addPost]] at hx
        rcases List.mem_append.mp hx with h | h
        · exact hclean x h
        · rw [List.mem_singleton.mp h]
          intro hcon
          simp [mkPost, historyInput] at hcon
      | none =>
        rw [show jobCallback posts q (.error e) fid now2
            = updatePostStatus posts q.id .failed (some e) now2 by
          simp [jobCallback, hqr]] at hx
        rcases mem_updateFirst _ _ _ _ hx with h | ⟨y, _, rfl⟩
        · exact hclean x h
        · rw [applyStatus_status]
          intro hcon
          cases hcon

/-- Witness for the amended C7 at the concrete past one-shot input. -/
theorem addPost_missed_only_via_schedule_witness :
    (findById (Sched.addPost [] Ex.pastInput "p1" 1000 false).1 "p1").map Post.status
      = some Status.missed := by
  have h := (addPost_missed_only_via_schedule [] Ex.pastInput "p1" 1000 rfl rfl
    (fun p hp => absurd hp (List.not_mem_nil _))).1
  have hc : Ex.pastInput.recurrence = none ∧ Ex.pastInput.scheduledAt < 1000 := by decide
  rw [if_pos hc] at h
  exact h

/-- C9: with a non-null statusFilter, getPosts filters by status only and
ignores includeDeleted; the deleted-exclusion runs only when statusFilter is
absent. -/
theorem getPosts_statusFilter_ignores_includeDeleted (posts : List Post) (s : Status) (b : Bool) :
    getPosts posts b (some s) = posts.filter (fun p => p.status == s)
      ∧ getPosts posts false (some .deleted) = posts.filter (fun p => p.status == .deleted)
      ∧ getPosts posts true none = posts
      ∧ getPosts posts false none = posts.filter (fun p => p.status != .deleted) := by
  refine ⟨rfl, rfl, rfl, rfl⟩

end SchedThm

namespace ApiThm

open Api

theorem retryLoop_returns (statuses : Nat → Nat) (lat : Nat → Int) :
    ∀ (fuel attempt backoff : Nat) (t : Int),
      attempt + fuel = maxRetries + 1 → attempt ≤ maxRetries →
      ∃ s, (retryLoop statuses lat fuel attempt backoff t).2.2 = .ok s := by
  intro fuel
  induction fuel with
  | zero => intro attempt backoff t h1 h2; omega
  | succ n ih =>
    intro attempt backoff t h1 h2
    by_cases h429 : statuses attempt = 429
    · by_cases hlt : attempt < maxRetries
      · obtain ⟨s, hs⟩ := ih (attempt + 1) (min (backoff * 2) 30000)
          (t + lat attempt + backoff) (by omega) (by omega)
        refine ⟨s, ?_⟩
        simpa [retryLoop, h429, hlt] using hs
      · exact ⟨429, by simp [retryLoop, h429, hlt]⟩
    · by_cases h5 : 500 ≤ statuses attempt ∧ attempt < maxRetries
      · obtain ⟨s, hs⟩ := ih (attempt + 1) (min (backoff * 2) 30000)
          (t + lat attempt + backoff) (by omega) (by omega)
        refine ⟨s, ?_⟩
        simpa [retryLoop, h429, h5] using hs
      · exact ⟨statuses attempt, by simp [retryLoop, h429, h5]⟩

/-- C3 (code bug): on persistent 429 (and likewise 5xx) responses, apiRequest
makes 1 + 3 attempts with backoff waits 2 s, 4 s, 8 s (doubling from 2 s; the
30 s cap is not reached within three retries), and then RETURNS the final
429/5xx response to the caller: the post-loop throw of 'VRChat API request
failed after max retries' is unreachable for every response schedule, so the
spec'd request-failed error is never raised. -/
theorem apiRequest_final_429_returned :
    Api.apiRequest ⟨0⟩ 1000 (fun _ => 429) (fun _ => 0)
      = ([1000, 3000, 7000, 15000], 15000, ⟨1000⟩, .ok 429)
    ∧ Api.apiRequest ⟨0⟩ 1000 (fun _ => 503) (fun _ => 0)
      = ([1000, 3000, 7000, 15000], 15000, ⟨1000⟩, .ok 503)
    ∧ ∀ (st : ApiState) (enter : Int) (statuses : Nat → Nat) (lat : Nat → Int),
        ∃ s, (Api.apiRequest st enter statuses lat).2.2.2 = .ok s := by
  refine ⟨rfl, rfl, ?_⟩
  intro st enter statuses lat
  obtain ⟨s, hs⟩ := retryLoop_returns statuses lat (maxRetries + 1) 0 2000
    (throttleEntry st.last enter) rfl (Nat.zero_le _)
  exact ⟨s, hs⟩

theorem retryLoop_head (statuses : Nat → Nat) (lat : Nat → Int)
    (fuel attempt backoff : Nat) (t : Int) :
    ∃ rest, (retryLoop statuses lat (fuel + 1) attempt backoff t).1 = t :: rest := by
  by_cases h429 : statuses attempt = 429
  · by_cases hlt : attempt < maxRetries
    · exact ⟨(retryLoop statuses lat fuel (attempt + 1) (min (backoff * 2) 30000)
        (t + lat attempt + backoff)).1, by simp [retryLoop, h429, hlt]⟩
    · exact ⟨[], by simp [retryLoop, h429, hlt]⟩
  · by_cases h5 : 500 ≤ statuses attempt ∧ attempt < maxRetries
    · exact ⟨(retryLoop statuses lat fuel (attempt + 1) (min (backoff * 2) 30000)
        (t + lat attempt + backoff)).1, by simp [retryLoop, h429, h5]⟩
    · exact ⟨[], by simp [retryLoop, h429, h5]⟩

theorem throttleEntry_ge (last enter : Int) :
    last + MIN_REQUEST_INTERVAL ≤ throttleEntry last enter := by
  unfold throttleEntry MIN_REQUEST_INTERVAL
  split <;> omega

/-- C4 counterexample: two sequential apiRequest calls, the first rate-limited
once. Fetches go out at 1000 and 3000 (the retry, paced only by the backoff
and not recorded in lastRequestTime) and again at 3000 (the second call's
throttle measures from the FIRST fetch of call one), so two distinct requests
are issued 0 ms apart — violating the claimed pairwise minimum spacing. -/
theorem throttle_pairwise_spacing_cex :
    Ex.seqFetchTimes = [1000, 3000, 3000]
    ∧ ¬ List.Chain' (fun a b : Int => a + Api.MIN_REQUEST_INTERVAL ≤ b) Ex.seqFetchTimes := by
  have h : Ex.seqFetchTimes = [1000, 3000, 3000] := rfl
  refine ⟨h, ?_⟩
  rw [h]
  intro hchain
  have := List.chain'_cons.mp hchain
  have h2 := List.chain'_cons.mp this.2
  have : (3000 : Int) + Api.MIN_REQUEST_INTERVAL ≤ 3000 := h2.1
  norm_num [Api.MIN_REQUEST_INTERVAL] at this

/-- C4 (amended): lastRequestTime is read and updated once, at call entry, so
the throttle spaces only the FIRST attempts of consecutive sequential
apiRequest calls — those are always at least MIN_REQUEST_INTERVAL apart —
while retry attempts within a call bypass the throttle entirely. -/
theorem throttle_spaces_first_attempts (st : ApiState) (enter1 enter2 : Int)
    (s1 s2 : Nat → Nat) (l1 l2 : Nat → Int) :
    ∃ a b rest1 rest2,
      (Api.apiRequest st enter1 s1 l1).1 = a :: rest1
      ∧ (Api.apiRequest (Api.apiRequest st enter1 s1 l1).2.2.1 enter2 s2 l2).1 = b :: rest2
      ∧ a + Api.MIN_REQUEST_INTERVAL ≤ b := by
  obtain ⟨r1, h1⟩ := retryLoop_head s1 l1 maxRetries 0 2000 (throttleEntry st.last enter1)
  obtain ⟨r2, h2⟩ := retryLoop_head s2 l2 maxRetries 0 2000
    (throttleEntry (throttleEntry st.last enter1) enter2)
  exact ⟨throttleEntry st.last enter1, throttleEntry (throttleEntry st.last enter1) enter2,
    r1, r2, h1, h2, throttleEntry_ge _ _⟩

end ApiThm

namespace GroupsThm

open Groups

theorem mlookup_cons (p : String × Entry) (m : GroupMap) (k : String) :
    mlookup (p :: m) k = if p.1 = k then some p.2 else mlookup m k := by
  by_cases h : p.1 = k <;> simp [mlookup, List.find?_cons, h]

theorem mlookup_append_kv (m : GroupMap) (k : String) (v : Entry)
    (h : ∀ p ∈ m, p.1 ≠ k) :
    mlookup (m ++ [(k, v)]) k = some v := by
  induction m with
  | nil => rw [List.nil_append, mlookup_cons, if_pos rfl]
  | cons p rest ih =>
    rw [List.cons_append, mlookup_cons, if_neg (h p (List.mem_cons_self _ _))]
    exact ih fun x hx => h x (List.mem_cons_of_mem _ hx)

theorem mlookup_append_ne (m : GroupMap) (k k2 : String) (v : Entry) (hne : k ≠ k2) :
    mlookup (m ++ [(k, v)]) k2 = mlookup m k2 := by
  induction m with
  | nil => rw [List.nil_append, mlookup_cons, if_neg hne]
  | cons p rest ih =>
    rw [List.cons_append, mlookup_cons, mlookup_cons, ih]

theorem not_key_of_any_false (m : GroupMap) (k : String)
    (h : m.any (fun p => p.1 == k) = false) : ∀ p ∈ m, p.1 ≠ k := by
  intro p hp
  have h2 := List.any_eq_false.mp h p hp
  simpa using h2

theorem mlookup_map_replace (m : GroupMap) (k : String) (v : Entry)
    (h : m.any (fun p => p.1 == k) = true) :
    mlookup (m.map (fun p => if p.1 == k then (k, v) else p)) k = some v := by
  induction m with
  | nil => cases h
  | cons p rest ih =>
    by_cases hp : (p.1 == k) = true
    · simp only [List.map_cons, hp, if_true]
      rw [mlookup_cons, if_pos rfl]
    · simp only [List.map_cons, hp, if_false, Bool.false_eq_true]
      rw [mlookup_cons, if_neg (by simpa using hp)]
      apply ih
      simpa [List.any_cons, hp] using h

theorem mlookup_map_replace_ne (m : GroupMap) (k k2 : String) (v : Entry) (hne : k ≠ k2) :
    mlookup (m.map (fun p => if p.1 == k then (k, v) else p)) k2 = mlookup m k2 := by
  induction m with
  | nil => rfl
  | cons p rest ih =>
    by_cases hp : (p.1 == k) = true
    · have hpk : p.1 = k := by simpa using hp
      simp only [List.map_cons, hp, if_true]
      rw [mlookup_cons, if_neg hne, mlookup_cons, if_neg (hpk ▸ hne), ih]
    · simp only [List.map_cons, hp, if_false, Bool.false_eq_true]
      rw [mlookup_cons, mlookup_cons, ih]

theorem mlookup_upsert_self (m : GroupMap) (k : String) (v : Entry) :
    mlookup (upsert m k v) k = some v := by
  unfold upsert
  by_cases h : m.any (fun p => p.1 == k) = true
  · rw [if_pos h]
    exact mlookup_map_replace m k v h
  · rw [if_neg h]
    exact mlookup_append_kv m k v
      (not_key_of_any_false m k (Bool.eq_false_iff.mpr h))

theorem mlookup_upsert_ne (m : GroupMap) (k k2 : String) (v : Entry) (hne : k ≠ k2) :
    mlookup (upsert m k v) k2 = mlookup m k2 := by
  unfold upsert
  by_cases h : m.any (fun p => p.1 == k) = true
  · rw [if_pos h]
    exact mlookup_map_replace_ne m k k2 v hne
  · rw [if_neg h]
    exact mlookup_append_ne m k k2 v hne

theorem mem_upsert (m : GroupMap) (k : String) (v : Entry) (x : String × Entry)
    (hx : x ∈ upsert m k v) : x = (k, v) ∨ x ∈ m := by
  unfold upsert at hx
  by_cases h : m.any (fun p => p.1 == k) = true
  · rw [if_pos h] at hx
    obtain ⟨y, hy, hxy⟩ := List.mem_map.mp hx
    by_cases hyk : (y.1 == k) = true
    · rw [if_pos hyk] at hxy; exact Or.inl hxy.symm
    · rw [if_neg hyk] at hxy; exact Or.inr (hxy ▸ hy)
  · rw [if_neg h] at hx
    rcases List.mem_append.mp hx with h1 | h1
    · exact Or.inr h1
    · exact Or.inl (List.mem_singleton.mp h1)

theorem mlookup_mem (m : GroupMap) (k : String) (v : Entry)
    (h : mlookup m k = some v) : (k, v) ∈ m := by
  unfold mlookup at h
  cases hf : m.find? (fun p => p.1 == k) with
  | none => rw [hf] at h; cases h
  | some pr =>
    rw [hf] at h
    have hmem := List.mem_of_find?_eq_some hf
    have hkey := List.find?_some hf
    have hk : pr.1 = k := by simpa using hkey
    have hv : pr.2 = v := by simpa using h
    have : pr = (k, v) := Prod.ext hk hv
    exact this ▸ hmem

/-- Both loop bodies write exactly one key — the current group's id — and
extend the checked list by at most that id. -/
def StepShape (step : GroupMap × List String → GroupInfo → GroupMap × List String) : Prop :=
  ∀ acc g, ∃ v, (step acc g).1 = upsert acc.1 g.groupId v
    ∧ ((step acc g).2 = acc.2 ∨ (step acc g).2 = acc.2 ++ [g.groupId])

theorem smartStep_shape (u : String) (ex : GroupMap) (now : Int)
    (perm : String → Except String Bool) : StepShape (smartStep u ex now perm) := by
  intro acc g
  unfold smartStep
  by_cases hown : (g.ownerId == u) = true
  · exact ⟨ownerEntry g now, by rw [if_pos hown], Or.inl (by rw [if_pos hown])⟩
  · rw [if_neg hown]
    cases hml : mlookup ex g.groupId with
    | some cached =>
      by_cases hck : cached.checkedAt.isSome = true
      · exact ⟨refreshDisplay cached g, by simp [hml, hck], Or.inl (by simp [hml, hck])⟩
      · cases hp : perm g.groupId with
        | ok b => exact ⟨checkedEntry g b now, by simp [hml, hck, hp], Or.inr (by simp [hml, hck, hp])⟩
        | error e => exact ⟨failedEntry g (some e) now, by simp [hml, hck, hp], Or.inr (by simp [hml, hck, hp])⟩
    | none =>
      cases hp : perm g.groupId with
      | ok b => exact ⟨checkedEntry g b now, by simp [hml, hp], Or.inr (by simp [hml, hp])⟩
      | error e => exact ⟨failedEntry g (some e) now, by simp [hml, hp], Or.inr (by simp [hml, hp])⟩

theorem forceStep_shape (u : String) (now : Int)
    (perm : String → Except String Bool) : StepShape (forceStep u now perm) := by
  intro acc g
  unfold forceStep
  by_cases hown : (g.ownerId == u) = true
  · exact ⟨ownerEntry g now, by rw [if_pos hown], Or.inl (by rw [if_pos hown])⟩
  · rw [if_neg hown]
    cases hp : perm g.groupId with
    | ok b => exact ⟨checkedEntry g b now, by simp [hp], Or.inr (by simp [hp])⟩
    | error e => exact ⟨failedEntry g none now, by simp [hp], Or.inr (by simp [hp])⟩

theorem fold_frame_generic (step : GroupMap × List String → GroupInfo → GroupMap × List String)
    (hstep : StepShape step) (gid : String) :
    ∀ (todo : List GroupInfo), (∀ g ∈ todo, g.groupId ≠ gid) →
      ∀ m out, mlookup (todo.foldl step (m, out)).1 gid = mlookup m gid
        ∧ (gid ∈ (todo.foldl step (m, out)).2 ↔ gid ∈ out) := by
  intro todo
  induction todo with
  | nil => intro _ m out; exact ⟨rfl, Iff.rfl⟩
  | cons g rest ih =>
    intro hne m out
    have hg : g.groupId ≠ gid := hne g (List.mem_cons_self _ _)
    have hrest : ∀ x ∈ rest, x.groupId ≠ gid := fun x hx => hne x (List.mem_cons_of_mem _ hx)
    obtain ⟨v, hv1, hv2⟩ := hstep (m, out) g
    obtain ⟨m2, out2, heq⟩ : ∃ m2 out2, step (m, out) g = (m2, out2) := ⟨_, _, rfl⟩
    rw [List.foldl_cons, heq]
    rw [heq] at hv1 hv2
    obtain ⟨h1, h2⟩ := ih hrest m2 out2
    refine ⟨h1.trans ?_, h2.trans ?_⟩
    · rw [show m2 = upsert m g.groupId v from hv1]
      exact mlookup_upsert_ne m g.groupId gid v hg
    · rcases hv2 with h | h
      · rw [show out2 = out from h]
      · rw [show out2 = out ++ [g.groupId] from h]
        simp [List.mem_append, Ne.symm hg]

theorem fold_owner_generic (step : GroupMap × List String → GroupInfo → GroupMap × List String)
    (hstep : StepShape step) (g0 : GroupInfo) (now : Int)
    (hown : ∀ acc, step acc g0 = (upsert acc.1 g0.groupId (ownerEntry g0 now), acc.2)) :
    ∀ (todo : List GroupInfo) m out, g0 ∈ todo → (todo.map GroupInfo.groupId).Nodup →
      mlookup (todo.foldl step (m, out)).1 g0.groupId = some (ownerEntry g0 now)
      ∧ (g0.groupId ∈ (todo.foldl step (m, out)).2 ↔ g0.groupId ∈ out) := by
  intro todo
  induction todo with
  | nil => intro m out h; cases h
  | cons g rest ih =>
    intro m out hmem hnd
    rw [List.map_cons, List.nodup_cons] at hnd
    rw [List.foldl_cons]
    rcases List.mem_cons.mp hmem with rfl | hmem2
    · rw [hown (m, out)]
      have hrest : ∀ x ∈ rest, x.groupId ≠ g0.groupId :=
        fun x hx he => hnd.1 (he ▸ List.mem_map_of_mem GroupInfo.groupId hx)
      obtain ⟨h1, h2⟩ := fold_frame_generic step hstep g0.groupId rest hrest
        (upsert m g0.groupId (ownerEntry g0 now)) out
      exact ⟨h1.trans (mlookup_upsert_self m g0.groupId _), h2⟩
    · have hg : g.groupId ≠ g0.groupId :=
        fun he => hnd.1 (he ▸ List.mem_map_of_mem GroupInfo.groupId hmem2)
      obtain ⟨v, hv1, hv2⟩ := hstep (m, out) g
      obtain ⟨m2, out2, heq⟩ : ∃ m2 out2, step (m, out) g = (m2, out2) := ⟨_, _, rfl⟩
      rw [heq]
      rw [heq] at hv2
      obtain ⟨h1, h2⟩ := ih m2 out2 hmem2 hnd.2
      refine ⟨h1, h2.trans ?_⟩
      rcases hv2 with h | h
      · rw [show out2 = out from h]
      · rw [show out2 = out ++ [g.groupId] from h]
        simp [List.mem_append, Ne.symm hg]

theorem smartStep_preserves (u : String) (ex : GroupMap) (now : Int)
    (perm : String → Except String Bool)
    (hex : ∀ p ∈ ex, p.2.isOwner = true → p.2.hasPermission = true)
    (acc : GroupMap × List String) (g : GroupInfo)
    (hm : ∀ p ∈ acc.1, p.2.isOwner = true → p.2.hasPermission = true) :
    ∀ p ∈ (smartStep u ex now perm acc g).1, p.2.isOwner = true → p.2.hasPermission = true := by
  intro p hp
  unfold smartStep at hp
  by_cases hown : (g.ownerId == u) = true
  · rw [if_pos hown] at hp
    rcases mem_upsert _ _ _ _ hp with rfl | h
    · intro _; rfl
    · exact hm p h
  · rw [if_neg hown] at hp
    cases hml : mlookup ex g.groupId with
    | some cached =>
      by_cases hck : cached.checkedAt.isSome = true
      · simp only [hml, hck, if_true] at hp
        rcases mem_upsert _ _ _ _ hp with rfl | h
        · intro hio
          exact hex (g.groupId, cached) (mlookup_mem ex g.groupId cached hml) hio
        · exact hm p h
      · simp only [hml, hck, if_false, Bool.false_eq_true] at hp
        cases hpm : perm g.groupId with
        | ok b =>
          simp only [hpm] at hp
          rcases mem_upsert _ _ _ _ hp with rfl | h
          · intro hio; cases hio
          · exact hm p h
        | error e =>
          simp only [hpm] at hp
          rcases mem_upsert _ _ _ _ hp with rfl | h
          · intro hio; cases hio
          · exact hm p h
    | none =>
      simp only [hml] at hp
      cases hpm : perm g.groupId with
      | ok b =>
        simp only [hpm] at hp
        rcases mem_upsert _ _ _ _ hp with rfl | h
        · intro hio; cases hio
        · exact hm p h
      | error e =>
        simp only [hpm] at hp
        rcases mem_upsert _ _ _ _ hp with rfl | h
        · intro hio; cases hio
        · exact hm p h

theorem forceStep_preserves (u : String) (now : Int)
    (perm : String → Except String Bool)
    (acc : GroupMap × List String) (g : GroupInfo)
    (hm : ∀ p ∈ acc.1, p.2.isOwner = true → p.2.hasPermission = true) :
    ∀ p ∈ (forceStep u now perm acc g).1, p.2.isOwner = true → p.2.hasPermission = true := by
  intro p hp
  unfold forceStep at hp
  by_cases hown : (g.ownerId == u) = true
  · rw [if_pos hown] at hp
    rcases mem_upsert _ _ _ _ hp with rfl | h
    · intro _; rfl
    · exact hm p h
  · rw [if_neg hown] at hp
    cases hpm : perm g.groupId with
    | ok b =>
      simp only [hpm] at hp
      rcases mem_upsert _ _ _ _ hp with rfl | h
      · intro hio; cases hio
      · exact hm p h
    | error e =>
      simp only [hpm] at hp
      rcases mem_upsert _ _ _ _ hp with rfl | h
      · intro hio; cases hio
      · exact hm p h

theorem fold_preserves (P : String × Entry → Prop)
    (step : GroupMap × List String → GroupInfo → GroupMap × List String)
    (hpres : ∀ acc g, (∀ p ∈ acc.1, P p) → ∀ p ∈ (step acc g).1, P p) :
    ∀ (todo : List GroupInfo) m out, (∀ p ∈ m, P p) →
      ∀ p ∈ (todo.foldl step (m, out)).1, P p := by
  intro todo
  induction todo with
  | nil => intro m out hm; exact hm
  | cons g rest ih =>
    intro m out hm
    rw [List.foldl_cons]
    obtain ⟨m2, out2, heq⟩ : ∃ m2 out2, step (m, out) g = (m2, out2) := ⟨_, _, rfl⟩
    rw [heq]
    apply ih
    intro p hp
    exact hpres (m, out) g hm p (by rw [heq]; exact hp)

/-- C6: in both refresh passes, a group owned by the user gets the owner
entry (isOwner = true, hasPermission = true) with no permission-check fetch
performed for that group, and the cache never pairs isOwner = true with
hasPermission = false (smart passes preserve this invariant from the
existing cache; force passes establish it outright). -/
theorem owner_groups_granted_unchecked (allGroups : List GroupInfo) (userId : String)
    (existing : CacheDoc) (perm : String → Except String Bool) (now : Int)
    (g : GroupInfo) (hmem : g ∈ allGroups) (hown : g.ownerId = userId)
    (hnd : (allGroups.map GroupInfo.groupId).Nodup) :
    (mlookup (checkAndCachePermissions allGroups userId existing perm now).1 g.groupId
        = some (ownerEntry g now)
      ∧ g.groupId ∉ (checkAndCachePermissions allGroups userId existing perm now).2)
    ∧ (mlookup (forceCheckAllPermissions allGroups userId perm now).1 g.groupId
        = some (ownerEntry g now)
      ∧ g.groupId ∉ (forceCheckAllPermissions allGroups userId perm now).2)
    ∧ (ownerEntry g now).isOwner = true ∧ (ownerEntry g now).hasPermission = true
    ∧ ((∀ p ∈ existing.groups, p.2.isOwner = true → p.2.hasPermission = true) →
        ∀ p ∈ (checkAndCachePermissions allGroups userId existing perm now).1,
          p.2.isOwner = true → p.2.hasPermission = true)
    ∧ (∀ p ∈ (forceCheckAllPermissions allGroups userId perm now).1,
        p.2.isOwner = true → p.2.hasPermission = true) := by
  have hbeq : (g.ownerId == userId) = true := beq_iff_eq.mpr hown
  have hsmartown : ∀ acc, smartStep userId existing.groups now perm acc g
      = (upsert acc.1 g.groupId (ownerEntry g now), acc.2) := by
    intro acc; unfold smartStep; rw [if_pos hbeq]
  have hforceown : ∀ acc, forceStep userId now perm acc g
      = (upsert acc.1 g.groupId (ownerEntry g now), acc.2) := by
    intro acc; unfold forceStep; rw [if_pos hbeq]
  obtain ⟨hs1, hs2⟩ := fold_owner_generic _ (smartStep_shape userId existing.groups now perm)
    g now hsmartown allGroups existing.groups [] hmem hnd
  obtain ⟨hf1, hf2⟩ := fold_owner_generic _ (forceStep_shape userId now perm)
    g now hforceown allGroups [] [] hmem hnd
  refine ⟨⟨hs1, fun hin => absurd (hs2.mp hin) (List.not_mem_nil _)⟩,
    ⟨hf1, fun hin => absurd (hf2.mp hin) (List.not_mem_nil _)⟩, rfl, rfl, ?_, ?_⟩
  · intro hex
    exact fold_preserves _ _ (smartStep_preserves userId existing.groups now perm hex)
      allGroups existing.groups [] hex
  · exact fold_preserves _ _ (forceStep_preserves userId now perm)
      allGroups [] [] (fun p hp => absurd hp (List.not_mem_nil _))

/-- Witness for C6: usr_1 owns grp_1; the cache holds a non-owner entry. -/
theorem owner_groups_granted_unchecked_witness :
    mlookup (checkAndCachePermissions [Ex.g1, Ex.g2] "usr_1" Ex.cacheEx
        (fun _ => .ok true) 7).1 "grp_1" = some (ownerEntry Ex.g1 7)
    ∧ "grp_1" ∉ (checkAndCachePermissions [Ex.g1, Ex.g2] "usr_1" Ex.cacheEx
        (fun _ => .ok true) 7).2 := by
  have h := owner_groups_granted_unchecked [Ex.g1, Ex.g2] "usr_1" Ex.cacheEx
    (fun _ => .ok true) 7 Ex.g1 (List.mem_cons_self _ _) rfl (by decide)
  exact ⟨h.1.1, h.1.2⟩

/-- C10: a smart refresh starts from a copy of the existing map and only ever
writes keys of live groups, so a departed group's entry is retained unchanged
and (when it has permission) is still in the filtered list getUserGroups
returns on its smart path; a forced refresh rebuilds from empty and drops it. -/
theorem smart_refresh_retains_departed (fetched : List GroupInfo) (userId : String)
    (cache : CacheDoc) (perm : String → Except String Bool) (now : Int)
    (gid : String) (e : Entry)
    (hgone : ∀ g ∈ fetched, g.groupId ≠ gid)
    (hold : mlookup cache.groups gid = some e) :
    mlookup (checkAndCachePermissions fetched userId cache perm now).1 gid = some e
    ∧ (e.hasPermission = true →
        ∃ fg ∈ buildFilteredGroupList (checkAndCachePermissions fetched userId cache perm now).1,
          fg.groupId = gid)
    ∧ mlookup (forceCheckAllPermissions fetched userId perm now).1 gid = none
    ∧ ∀ t, cache.lastFullCheck = some t → ¬(now - t < GROUP_CACHE_TTL) → cache.groups ≠ [] →
        (getUserGroups cache now fetched perm userId).1.groups
          = buildFilteredGroupList (checkAndCachePermissions fetched userId cache perm now).1 := by
  have hsmart := (fold_frame_generic _ (smartStep_shape userId cache.groups now perm)
    gid fetched hgone cache.groups []).1
  have hforce := (fold_frame_generic _ (forceStep_shape userId now perm)
    gid fetched hgone [] []).1
  have hs : mlookup (checkAndCachePermissions fetched userId cache perm now).1 gid = some e :=
    hsmart.trans hold
  refine ⟨hs, ?_, hforce, ?_⟩
  · intro hperm
    have hmem : (gid, e) ∈ (checkAndCachePermissions fetched userId cache perm now).1 :=
      mlookup_mem _ _ _ hs
    refine ⟨⟨e.groupData, gid, e.isOwner, true⟩, ?_, rfl⟩
    unfold buildFilteredGroupList
    exact List.mem_map.mpr ⟨(gid, e), List.mem_filter.mpr ⟨hmem, by simp [hperm]⟩, rfl⟩
  · intro t hfc hstale hne
    unfold getUserGroups
    have hfresh : cacheFresh cache now = false := by
      unfold cacheFresh
      rw [hfc]
      simp [hstale]
    have hguard : (cache.lastFullCheck.isNone || cache.groups.isEmpty) = false := by
      rw [hfc]
      simp [hne]
    rw [hfresh, hguard]
    simp

/-- Witness for C10: grp_2 is absent from the live list but keeps its entry
under the smart pass, while the force pass drops it. -/
theorem smart_refresh_retains_departed_witness :
    mlookup (checkAndCachePermissions [Ex.g1] "usr_1" Ex.cacheEx (fun _ => .ok true) 7).1 "grp_2"
      = some Ex.e2
    ∧ mlookup (forceCheckAllPermissions [Ex.g1] "usr_1" (fun _ => .ok true) 7).1 "grp_2" = none := by
  have h := smart_refresh_retains_departed [Ex.g1] "usr_1" Ex.cacheEx (fun _ => .ok true) 7
    "grp_2" Ex.e2 (by intro g hg; rw [List.mem_singleton.mp hg]; decide) rfl
  exact ⟨h.1, h.2.2.1⟩

/-- C5: a manual refresh within 5 minutes of the previous one returns the
cached filtered list with refreshed = false and a positive cooldownRemaining
in seconds, issues no network request, checks no permissions, and leaves the
persisted cache document unchanged; any refresh that does proceed stamps both
lastFullCheck and lastRefresh with the current time. -/
theorem refresh_cooldown (cache : CacheDoc) (now lr : Int) (fetched : List GroupInfo)
    (perm : String → Except String Bool) (userId : String)
    (hlr : cache.lastRefresh = some lr) (hcool : now - lr < REFRESH_COOLDOWN) :
    ((refreshUserGroups cache now fetched perm userId).1.refreshed = false
      ∧ (refreshUserGroups cache now fetched perm userId).1.groups
          = buildFilteredGroupList cache.groups
      ∧ 1 ≤ (refreshUserGroups cache now fetched perm userId).1.cooldownRemaining
      ∧ (refreshUserGroups cache now fetched perm userId).2.1 = cache
      ∧ (refreshUserGroups cache now fetched perm userId).2.2.1 = false
      ∧ (refreshUserGroups cache now fetched perm userId).2.2.2 = [])
    ∧ ∀ (c : CacheDoc) (n : Int) (f : List GroupInfo) (pm : String → Except String Bool)
        (u : String),
        (refreshUserGroups c n f pm u).1.refreshed = true →
        (refreshUserGroups c n f pm u).2.1.lastFullCheck = some n
          ∧ (refreshUserGroups c n f pm u).2.1.lastRefresh = some n := by
  constructor
  · have hpos : 0 < REFRESH_COOLDOWN - (now - lr) := by
      unfold REFRESH_COOLDOWN at hcool ⊢
      omega
    have heq : refreshUserGroups cache now fetched perm userId
        = ({ groups := buildFilteredGroupList cache.groups
             cooldownRemaining := ceilSeconds (REFRESH_COOLDOWN - (now - lr))
             refreshed := false }, cache, false, []) := by
      unfold refreshUserGroups
      rw [hlr]
      simp [hpos]
    rw [heq]
    refine ⟨rfl, rfl, ?_, rfl, rfl, rfl⟩
    show (1 : Int) ≤ ceilSeconds (REFRESH_COOLDOWN - (now - lr))
    unfold ceilSeconds REFRESH_COOLDOWN at hpos ⊢
    omega
  · intro c n f pm u href
    unfold refreshUserGroups refreshForce at href ⊢
    cases hlr2 : c.lastRefresh with
    | none =>
      simp only [hlr2]
      exact ⟨trivial, trivial⟩

    | some lr2 =>
      simp only [hlr2] at href ⊢
      by_cases hc : 0 < REFRESH_COOLDOWN - (n - lr2)
      · rw [if_pos hc] at href
        simp at href
      · rw [if_neg hc]
        exact ⟨rfl, rfl⟩

/-- Witness for C5: a second refresh 100 s after the previous one. -/
theorem refresh_cooldown_witness :
    (refreshUserGroups Ex.cacheEx 200000 [] (fun _ => .ok true) "usr_1").1.refreshed = false
    ∧ (refreshUserGroups Ex.cacheEx 200000 [] (fun _ => .ok true) "usr_1").1.groups
        = buildFilteredGroupList Ex.cacheEx.groups
    ∧ 1 ≤ (refreshUserGroups Ex.cacheEx 200000 [] (fun _ => .ok true) "usr_1").1.cooldownRemaining
    ∧ (refreshUserGroups Ex.cacheEx 200000 [] (fun _ => .ok true) "usr_1").2.1 = Ex.cacheEx := by
  have h := refresh_cooldown Ex.cacheEx 200000 100000 [] (fun _ => .ok true) "usr_1" rfl
    (by unfold REFRESH_COOLDOWN; omega)
  exact ⟨h.1.1, h.1.2.1, h.1.2.2.1, h.1.2.2.2.1⟩

end GroupsThm

namespace StorageThm

open Storage

/-- C8: readJson returns the parsed document when the file exists (decrypting
first when the encrypted option is set and the platform mechanism available)
and parsing succeeds; it returns the caller-supplied default — never raising —
when the document is missing or decryption or JSON parsing fails. -/
theorem readJson_total_with_default {α : Type} (encrypted encAvail : Bool)
    (decrypt : String → Option String) (parse : String → Option α) (d : α) :
    (readJson .missing encrypted encAvail decrypt parse d = d)
    ∧ (∀ bytes, (encrypted && encAvail) = true → decrypt bytes = none →
        readJson (.stored bytes) encrypted encAvail decrypt parse d = d)
    ∧ (∀ bytes s, (encrypted && encAvail) = true → decrypt bytes = some s → parse s = none →
        readJson (.stored bytes) encrypted encAvail decrypt parse d = d)
    ∧ (∀ bytes s v, (encrypted && encAvail) = true → decrypt bytes = some s → parse s = some v →
        readJson (.stored bytes) encrypted encAvail decrypt parse d = v)
    ∧ (∀ bytes, (encrypted && encAvail) = false → parse bytes = none →
        readJson (.stored bytes) encrypted encAvail decrypt parse d = d)
    ∧ (∀ bytes v, (encrypted && encAvail) = false → parse bytes = some v →
        readJson (.stored bytes) encrypted encAvail decrypt parse d = v) := by
  refine ⟨rfl, ?_, ?_, ?_, ?_, ?_⟩
  · intro bytes henc hdec
    obtain ⟨he, ha⟩ := Bool.and_eq_true_iff.mp henc
    simp [readJson, readJsonTry, he, ha, hdec]
  · intro bytes s henc hdec hparse
    obtain ⟨he, ha⟩ := Bool.and_eq_true_iff.mp henc
    simp [readJson, readJsonTry, he, ha, hdec, hparse]
  · intro bytes s v henc hdec hparse
    obtain ⟨he, ha⟩ := Bool.and_eq_true_iff.mp henc
    simp [readJson, readJsonTry, he, ha, hdec, hparse]
  · intro bytes henc hparse
    have hne : ¬(encrypted = true ∧ encAvail = true) := by
      rintro ⟨h1, h2⟩
      rw [h1, h2] at henc
      cases henc
    simp [readJson, readJsonTry, hne, hparse]
  · intro bytes v henc hparse
    have hne : ¬(encrypted = true ∧ encAvail = true) := by
      rintro ⟨h1, h2⟩
      rw [h1, h2] at henc
      cases henc
    simp [readJson, readJsonTry, hne, hparse]

/-- Witness for C8: a failing decrypt, a missing file, and a clean read. -/
theorem readJson_total_with_default_witness :
    Storage.readJson (Storage.RawDoc.stored "junk") true true (fun _ => none)
      (fun _ => (none : Option Nat)) 7 = 7
    ∧ Storage.readJson Storage.RawDoc.missing false false (fun _ => none)
      (fun s => some s.length) 3 = 3
    ∧ Storage.readJson (Storage.RawDoc.stored "ok") false false (fun _ => none)
      (fun s => some s.length) 3 = 2 := by
  have h1 := readJson_total_with_default (α := Nat) true true (fun _ => none) (fun _ => none) 7
  have h2 := readJson_total_with_default (α := Nat) false false (fun _ => none)
    (fun s => some s.length) 3
  exact ⟨h1.2.1 "junk" rfl rfl, h2.1, h2.2.2.2.2.2 "ok" 2 rfl rfl⟩

end StorageThm
